import Mathlib

/-!
Verification of the XCOFF object-file loader
(`src/cmd/link/internal/loadxcoff/ldxcoff.go`).

The loader's own code (`Load`, `getSymbolType`, the `ldSection` wrapper) is
embedded below as executable Lean definitions.  The collaborating packages
(`debug/xcoff`, `cmd/link/internal/sym`, `cmd/internal/objabi`) are not part
of the source slice; their constants carry the fixed numeric values of the
XCOFF format, and the symbol-interning table is modelled from the spec's
description of the shared namespace (lookup-or-insert keyed by name and
version, with a fresh local version minted per load).

Machine integers are modelled as `Nat`/`Int` with explicit two's-complement
reductions (`toInt64`, `toInt32`) at the points where the Go code converts
between widths.  A Go runtime panic (out-of-range slice index) is modelled
by an explicit result constructor, never by partiality.
-/

namespace LoadXcoff

/-- XCOFF section type flag `STYP_DWARF` (value from the XCOFF format, as in
the Go `debug/xcoff` package). -/
def STYP_DWARF : Nat := 0x0010

/-- XCOFF section type flag `STYP_TEXT`. -/
def STYP_TEXT : Nat := 0x0020

/-- XCOFF section type flag `STYP_DATA`. -/
def STYP_DATA : Nat := 0x0040

/-- XCOFF section type flag `STYP_BSS`. -/
def STYP_BSS : Nat := 0x0080

/-- XCOFF section type flag `STYP_DEBUG`. -/
def STYP_DEBUG : Nat := 0x2000

/-- XCOFF storage class `C_FILE`. -/
def C_FILE : Nat := 103

/-- XCOFF storage class `C_EXT` (external). -/
def C_EXT : Nat := 2

/-- XCOFF storage class `C_HIDEXT` (hidden external). -/
def C_HIDEXT : Nat := 107

/-- XCOFF storage class `C_WEAKEXT` (weak external). -/
def C_WEAKEXT : Nat := 111

/-- XCOFF storage mapping class `XMC_PR` (program code). -/
def XMC_PR : Nat := 0

/-- XCOFF storage mapping class `XMC_RW` (read/write data). -/
def XMC_RW : Nat := 5

/-- XCOFF storage mapping class `XMC_DS` (function descriptor). -/
def XMC_DS : Nat := 10

/-- XCOFF storage mapping class `XMC_TC0` (TOC anchor). -/
def XMC_TC0 : Nat := 15

/-- XCOFF storage mapping class `XMC_TE` (TOC entry). -/
def XMC_TE : Nat := 22

/-- XCOFF relocation type `R_POS` (positive relocation). -/
def R_POS : Nat := 0x00

/-- XCOFF relocation type `R_RBR` (relative branch). -/
def R_RBR : Nat := 0x1A

/-- Symbol kinds used by the loader, the relevant constructors of the
linker's `sym.SymKind` enumeration (`Sxxx` is the zero value). -/
inductive SymKind where
  | Sxxx
  | STEXT
  | SDATA
  | SNOPTRDATA
  | SNOPTRBSS
  | SXCOFFTOC
  deriving DecidableEq, Repr

/-- Relocation kinds used by the loader, the relevant constructors of
`objabi.RelocType`; `RNONE` is the zero value left in place when no case of
the relocation switch assigns a type. -/
inductive RelocKind where
  | RNONE
  | RCONST
  | RCALLPOWER
  deriving DecidableEq, Repr

/-- Reduction of a natural number to Go's `int64` (two's complement). -/
def toInt64 (x : Nat) : Int :=
  if x % 2 ^ 64 < 2 ^ 63 then ((x % 2 ^ 64 : Nat) : Int)
  else ((x % 2 ^ 64 : Nat) : Int) - 2 ^ 64

/-- Reduction of a natural number to Go's `int32` (two's complement). -/
def toInt32 (x : Nat) : Int :=
  if x % 2 ^ 32 < 2 ^ 31 then ((x % 2 ^ 32 : Nat) : Int)
  else ((x % 2 ^ 32 : Nat) : Int) - 2 ^ 32

/-- Reduction of an integer to Go's `uint64` (two's complement). -/
def toUInt64 (x : Int) : Nat := (x % 2 ^ 64).toNat

/-- Raw relocation entry of the input file: the fields of `xcoff.Reloc`
read by the loader (`VirtualAddress`, `Symbol.Name`, `Symbol.Value`,
`Length`, `Type`). -/
structure RawReloc where
  virtualAddress : Nat
  symbolName : String
  symbolValue : Nat
  length : Nat
  typ : Nat
  deriving DecidableEq, Repr

/-- Raw section of the input file: the fields of `xcoff.Section` read by the
loader.  `payload` is the byte content returned by `Section.Data`; `dataErr`
models an I/O failure of that read (the byte reader is an external
collaborator).  Per the `debug/xcoff` reader, `Relocs` holds exactly
`Nreloc` entries, so the declared relocation count is `relocs.length`. -/
structure RawSection where
  name : String
  typ : Nat
  size : Nat
  relocs : List RawReloc
  payload : List Nat
  dataErr : Option String
  deriving DecidableEq, Repr

/-- Declared relocation count of a section (`SectionHeader.Nreloc`; the
`debug/xcoff` reader guarantees `len(Relocs) == Nreloc`). -/
def RawSection.nreloc (s : RawSection) : Nat := s.relocs.length

/-- Result of `xcoff.Section.Data()`: the payload bytes, or an I/O error. -/
def RawSection.Data (s : RawSection) : Except String (List Nat) :=
  match s.dataErr with
  | some e => .error e
  | none => .ok s.payload

/-- Raw symbol-table entry of the input file: the fields of `xcoff.Symbol`
read by the loader (`Name`, `Value`, `SectionNumber`, `StorageClass`,
`AuxCSect.StorageMappingClass`). -/
structure RawSymbol where
  name : String
  value : Nat
  sectionNumber : Int
  storageClass : Nat
  storageMappingClass : Nat
  deriving DecidableEq, Repr

/-- Parsed XCOFF file (`xcoff.File`): its section list and symbol table. -/
structure XcoffFile where
  sections : List RawSection
  symbols : List RawSymbol
  deriving DecidableEq, Repr

/-- Canonical relocation record: the fields of `sym.Reloc` written by the
loader.  The target symbol pointer is represented by its interning key
(name, version); the loader always resolves targets at version 0. -/
structure Reloc where
  off : Int
  siz : Nat
  typ : RelocKind
  add : Int
  sym : String × Nat
  deriving DecidableEq, Repr

/-- Canonical symbol: the fields of `sym.Symbol` written or read by the
loader (`Type`, `Size`, `Attr` restricted to the on-list bit, `P`, `R`).
`p = none` models a nil byte slice. -/
structure Symbol where
  typ : SymKind
  size : Int
  attrOnList : Bool
  p : Option (List Nat)
  r : List Reloc
  deriving DecidableEq, Repr

/-- Fresh symbol as created by a namespace lookup miss: all fields zero. -/
def Symbol.empty : Symbol :=
  { typ := .Sxxx, size := 0, attrOnList := false, p := none, r := [] }

/-- Association-table search keyed on (name, version); first match wins
(keys are unique because insertion happens only on a lookup miss). -/
def tblFind : List ((String × Nat) × Symbol) → (String × Nat) → Option Symbol
  | [], _ => none
  | kv :: t, k => if kv.1 = k then some kv.2 else tblFind t k

/-- Association-table in-place mutation of the entry with the given key
(a no-op when the key is absent, like writing through a nil pointer guard:
the loader only updates keys it has looked up). -/
def tblUpdate : List ((String × Nat) × Symbol) → (String × Nat) → (Symbol → Symbol) →
    List ((String × Nat) × Symbol)
  | [], _, _ => []
  | kv :: t, k, g =>
    if kv.1 = k then (kv.1, g kv.2) :: tblUpdate t k g else kv :: tblUpdate t k g

/-- Modelled from the spec: the link-wide symbol namespace
(`cmd/link/internal/sym.Symbols`, not part of the source slice) — an
interning table keyed by (name, version scope) plus the version counter
used to mint fresh per-file local scopes; version 0 is the global/shared
namespace. -/
structure Symbols where
  versions : Nat
  table : List ((String × Nat) × Symbol)
  deriving DecidableEq, Repr

/-- Modelled from the spec: `Symbols.IncVersion` mints a fresh local version
scope (strictly positive, so it never collides with the global scope 0) and
returns it together with the updated namespace. -/
def Symbols.IncVersion (s : Symbols) : Nat × Symbols :=
  (s.versions + 1, { s with versions := s.versions + 1 })

/-- Lookup of the symbol stored under a key, without interning. -/
def Symbols.find (s : Symbols) (k : String × Nat) : Option Symbol :=
  tblFind s.table k

/-- Modelled from the spec: `Symbols.Lookup` — lookup-or-insert returning
the (possibly freshly created, zero-valued) symbol under (name, version). -/
def Symbols.Lookup (s : Symbols) (name : String) (v : Nat) : Symbol × Symbols :=
  match s.find (name, v) with
  | some sy => (sy, s)
  | none => (Symbol.empty, { s with table := s.table ++ [((name, v), Symbol.empty)] })

/-- Mutation of the symbol stored under a key (the Go code mutates the
symbol through the pointer returned by `Lookup`). -/
def Symbols.update (s : Symbols) (k : String × Nat) (g : Symbol → Symbol) : Symbols :=
  { s with table := tblUpdate s.table k g }

/-- Result of `getSymbolType`: the pair (`sym.SymKind`, error string) the Go
function returns, or `indexOutOfRange` modelling the runtime panic raised by
`f.Sections[s.SectionNumber-1]` when the index is outside the section list. -/
inductive SymTypeResult where
  | res (stype : SymKind) (err : String)
  | indexOutOfRange
  deriving DecidableEq, Repr

/-- Embedding of `getSymbolType` (ldxcoff.go:167-236): converts an XCOFF
symbol to a `sym.SymKind`, with `Sxxx` plus empty error meaning "skip" and
`Sxxx` plus nonempty error a decode failure.  Error strings keep the Go
format text without the interpolated hex values. -/
def getSymbolType (f : XcoffFile) (s : RawSymbol) : SymTypeResult :=
  if s.sectionNumber = -2 then
    if s.storageClass = C_FILE then .res .Sxxx ""
    else .res .Sxxx "Unrecognised StorageClass for sectionNumber = -2"
  else if s.sectionNumber = 0 then .res .Sxxx ""
  else if s.sectionNumber < 1 then .indexOutOfRange
  else
    match f.sections.get? (s.sectionNumber - 1).toNat with
    | none => .indexOutOfRange
    | some sect =>
      if sect.typ = STYP_DWARF ∨ sect.typ = STYP_DEBUG then .res .Sxxx ""
      else if ¬(sect.typ = STYP_DATA ∨ sect.typ = STYP_BSS ∨ sect.typ = STYP_TEXT) then
        .res .Sxxx "getSymbolType for Section type not implemented"
      else if s.storageClass = C_HIDEXT ∨ s.storageClass = C_EXT ∨
          s.storageClass = C_WEAKEXT then
        if s.storageMappingClass = XMC_PR then
          if sect.typ = STYP_TEXT then .res .STEXT ""
          else .res .Sxxx "Unrecognised Section Type for Storage Class with Storage Map XMC_PR"
        else if s.storageMappingClass = XMC_RW then
          if sect.typ = STYP_DATA then .res .SDATA ""
          else if sect.typ = STYP_BSS then .res .SDATA ""
          else .res .Sxxx "Unrecognised Section Type for Storage Class with Storage Map XMC_RW"
        else if s.storageMappingClass = XMC_DS then
          if sect.typ = STYP_DATA then .res .SDATA ""
          else .res .Sxxx "Unrecognised Section Type for Storage Class with Storage Map XMC_DS"
        else if s.storageMappingClass = XMC_TC0 ∨ s.storageMappingClass = XMC_TE then
          if sect.typ = STYP_DATA then .res .SXCOFFTOC ""
          else .res .Sxxx "Unrecognised Section Type for Storage Class with Storage Map XMC_DS"
        else .res .Sxxx "getSymbolType for Storage class and Storage Map not implemented"
      else .res .Sxxx "getSymbolType for Storage class not implemented"

/-- Embedding of `ldSection` (ldxcoff.go:19-22): a retained XCOFF section
paired with the interning key of its canonical symbol. -/
structure LdSection where
  sec : RawSection
  symKey : String × Nat
  deriving DecidableEq, Repr

/-- Interning key of the canonical symbol of a retained section:
name `pkg ++ "(" ++ section name ++ ")"` in the local version scope. -/
def keyOf (pkg : String) (ver : Nat) (sect : RawSection) : String × Nat :=
  (pkg ++ "(" ++ sect.name ++ ")", ver)

/-- Interning and the type/size stores for one retained section
(ldxcoff.go:64-78): look the symbol up in the local version scope, assign
the mapped kind (the default branch of the type switch builds an error
with `errorf` and discards the result, leaving the kind unchanged), and
record the declared size. -/
def sectionStep (pkg : String) (ver : Nat) (sect : RawSection) (syms : Symbols) : Symbols :=
  let key := keyOf pkg ver sect
  let syms1 := (Symbols.Lookup syms key.1 ver).2
  let syms2 :=
    if sect.typ = STYP_TEXT then syms1.update key (fun s => { s with typ := .STEXT })
    else if sect.typ = STYP_DATA then
      syms1.update key (fun s => { s with typ := .SNOPTRDATA })
    else if sect.typ = STYP_BSS then
      syms1.update key (fun s => { s with typ := .SNOPTRBSS })
    else syms1
  syms2.update key (fun s => { s with size := toInt64 sect.size })

/-- Embedding of the section loop of `Load` (ldxcoff.go:57-89).  Sections
with type outside `[STYP_TEXT, STYP_BSS]` are skipped.  A retained section
runs `sectionStep` and, when the stored kind is not `SNOPTRBSS`, copies the
section payload into the symbol (an I/O failure there is returned and
aborts the load). -/
def loadSections (pkg : String) (ver : Nat) :
    List RawSection → Symbols → Except String (List LdSection) × Symbols
  | [], syms => (.ok [], syms)
  | sect :: rest, syms =>
    if sect.typ < STYP_TEXT ∨ STYP_BSS < sect.typ then
      loadSections pkg ver rest syms
    else
      let key := keyOf pkg ver sect
      let syms3 := sectionStep pkg ver sect syms
      if ((syms3.find key).getD Symbol.empty).typ ≠ .SNOPTRBSS then
        match sect.Data with
        | .error e => (.error e, syms3)
        | .ok data =>
          let syms4 := syms3.update key (fun s => { s with p := some data })
          match loadSections pkg ver rest syms4 with
          | (.error e, syms5) => (.error e, syms5)
          | (.ok lds, syms5) => (.ok ({ sec := sect, symKey := key } :: lds), syms5)
      else
        match loadSections pkg ver rest syms3 with
        | (.error e, syms5) => (.error e, syms5)
        | (.ok lds, syms5) => (.ok ({ sec := sect, symKey := key } :: lds), syms5)

/-- Embedding of the symbol loop of `Load` (ldxcoff.go:93-120).  A
classification failure builds an error with `errorf` whose result is
discarded; the entry is then skipped because the failing classification
also returns `Sxxx`.  A symbol whose global (version 0) entry has kind Text
is flagged on-list and appended to `textp`; when the flag was already set
the duplicate error built by `errorf` is likewise discarded and the symbol
is appended again.  `none` models the runtime panic of the section index in
`getSymbolType`. -/
def loadSymbols (f : XcoffFile) :
    List RawSymbol → List (String × Nat) → Symbols →
    Option (List (String × Nat)) × Symbols
  | [], textp, syms => (some textp, syms)
  | sx :: rest, textp, syms =>
    match getSymbolType f sx with
    | .indexOutOfRange => (none, syms)
    | .res stype _err =>
      if stype = .Sxxx then loadSymbols f rest textp syms
      else
        let s := (Symbols.Lookup syms sx.name 0).1
        let syms1 := (Symbols.Lookup syms sx.name 0).2
        if s.typ = .STEXT then
          let syms2 := syms1.update (sx.name, 0) (fun t => { t with attrOnList := true })
          loadSymbols f rest (textp ++ [(sx.name, 0)]) syms2
        else
          loadSymbols f rest textp syms1

/-- Pure part of translating one raw relocation (ldxcoff.go:130-155): the
record written into `rs[i]`.  The offset is the virtual address reduced to
`int32`; the preceding range check builds an error with `errorf` and
discards it.  `R_POS` sets size 8, kind `R_CONST`, addend the target
symbol's value (the length-64 check likewise discards its error); `R_RBR`
sets size 4, kind `R_CALLPOWER`, addend 0; any other type leaves the zero
values in place after discarding the unknown-type error. -/
def translateReloc1 (rx : RawReloc) : Reloc :=
  let off := toInt32 rx.virtualAddress
  if rx.typ = R_POS then
    { off := off, siz := 8, typ := .RCONST, add := toInt64 rx.symbolValue,
      sym := (rx.symbolName, 0) }
  else if rx.typ = R_RBR then
    { off := off, siz := 4, typ := .RCALLPOWER, add := 0, sym := (rx.symbolName, 0) }
  else
    { off := off, siz := 0, typ := .RNONE, add := 0, sym := (rx.symbolName, 0) }

/-- Relocation loop over one section's raw entries (ldxcoff.go:129-156):
each entry resolves its target by name in the global namespace (interning
it if absent) and contributes the record of `translateReloc1`, in file
order. -/
def translateRelocs : Symbols → List RawReloc → List Reloc × Symbols
  | syms, [] => ([], syms)
  | syms, rx :: rest =>
    let syms1 := (Symbols.Lookup syms rx.symbolName 0).2
    let (rs, syms2) := translateRelocs syms1 rest
    (translateReloc1 rx :: rs, syms2)

/-- Embedding of the relocation loop of `Load` (ldxcoff.go:123-160):
sections other than Text and Data are skipped; for the others the
translated records are stored as the section symbol's relocation list
(`s.R = rs[:sect.Nreloc]`, the identity since `rs` has `Nreloc` entries). -/
def loadRelocSections : List LdSection → Symbols → Symbols
  | [], syms => syms
  | l :: rest, syms =>
    if l.sec.typ ≠ STYP_TEXT ∧ l.sec.typ ≠ STYP_DATA then
      loadRelocSections rest syms
    else
      let (rs, syms1) := translateRelocs syms l.sec.relocs
      let syms2 := syms1.update l.symKey (fun s => { s with r := rs })
      loadRelocSections rest syms2

/-- Result of a `Load` call: the returned text symbol list (as interning
keys), an error return, or `crash` for a Go runtime panic. -/
inductive LoadResult where
  | ok (textp : List (String × Nat))
  | err (msg : String)
  | crash
  deriving DecidableEq, Repr

/-- Embedding of `Load` (ldxcoff.go:43-163) on an already parsed file: mint
the local version scope, run the section loop, the symbol loop and the
relocation loop in sequence, and return the text symbol list. -/
def Load (syms : Symbols) (pkg : String) (f : XcoffFile) : LoadResult × Symbols :=
  let localSymVersion := (Symbols.IncVersion syms).1
  let syms0 := (Symbols.IncVersion syms).2
  match loadSections pkg localSymVersion f.sections syms0 with
  | (.error e, syms1) => (.err e, syms1)
  | (.ok ldSections, syms1) =>
    match loadSymbols f f.symbols [] syms1 with
    | (none, syms2) => (.crash, syms2)
    | (some textp, syms2) =>
      let syms3 := loadRelocSections ldSections syms2
      (.ok textp, syms3)

/-- Symbol namespace with no entries and no minted local versions. -/
def emptySymbols : Symbols := { versions := 0, table := [] }

/-- Kind stored by the section type switch (ldxcoff.go:67-76) for a fresh
symbol: the mapped kind for Text/Data/Bss, and the zero kind `Sxxx` when
the switch's default branch leaves the fresh symbol untouched. -/
def sectKind (sect : RawSection) : SymKind :=
  if sect.typ = STYP_TEXT then .STEXT
  else if sect.typ = STYP_DATA then .SNOPTRDATA
  else if sect.typ = STYP_BSS then .SNOPTRBSS
  else .Sxxx

/-- Section symbol contents right after `sectionStep` on a fresh symbol. -/
def mkSectSymPre (sect : RawSection) : Symbol :=
  { typ := sectKind sect, size := toInt64 sect.size, attrOnList := false,
    p := none, r := [] }

/-- Section symbol contents after the whole section iteration on a fresh
symbol: the payload is attached exactly when the stored kind is not
`SNOPTRBSS`. -/
def mkSectSym (sect : RawSection) : Symbol :=
  { typ := sectKind sect, size := toInt64 sect.size, attrOnList := false,
    p := if sectKind sect ≠ .SNOPTRBSS then some sect.payload else none, r := [] }

/-- Concrete input: a Data section whose single relocation entry has the
unknown raw type `0x05` (the loader only recognises `R_POS` and `R_RBR`). -/
def fileC1 : XcoffFile :=
  { sections := [
      { name := "d", typ := 0x40, size := 4,
        relocs := [
          { virtualAddress := 0, symbolName := "t", symbolValue := 0, length := 64,
            typ := 0x05 }],
        payload := [1, 2, 3, 4], dataErr := none }],
    symbols := [] }

/-- Concrete initial namespace holding a global (version 0) Text symbol
`foo`, as left behind by a previously loaded object file. -/
def symsC2 : Symbols :=
  { versions := 0,
    table := [(("foo", 0),
      { typ := .STEXT, size := 0, attrOnList := false, p := none, r := [] })] }

/-- Concrete input: two identical raw symbol entries for `foo`, both
classified as program code in the Text section, forcing the duplicate
text-symbol condition. -/
def fileC2 : XcoffFile :=
  { sections := [
      { name := "t", typ := 0x20, size := 0, relocs := [], payload := [],
        dataErr := none }],
    symbols := [
      { name := "foo", value := 0, sectionNumber := 1, storageClass := 2,
        storageMappingClass := 0 },
      { name := "foo", value := 0, sectionNumber := 1, storageClass := 2,
        storageMappingClass := 0 }] }

/-- Concrete input: a Data section and a raw symbol of storage class
`C_EXT` with storage mapping class `XMC_RW` referencing it. -/
def fileC3 : XcoffFile :=
  { sections := [
      { name := "d", typ := 0x40, size := 1, relocs := [], payload := [5],
        dataErr := none }],
    symbols := [
      { name := "v", value := 0, sectionNumber := 1, storageClass := 2,
        storageMappingClass := 5 }] }

/-- The raw symbol entry of `fileC3`. -/
def symC3 : RawSymbol :=
  { name := "v", value := 0, sectionNumber := 1, storageClass := 2,
    storageMappingClass := 5 }

/-- Concrete input: a Bss section and a `C_EXT`/`XMC_RW` raw symbol
referencing it (the Bss-resident read/write case). -/
def fileC3b : XcoffFile :=
  { sections := [
      { name := "b", typ := 0x80, size := 8, relocs := [], payload := [],
        dataErr := none }],
    symbols := [
      { name := "w", value := 0, sectionNumber := 1, storageClass := 2,
        storageMappingClass := 5 }] }

/-- The raw symbol entry of `fileC3b`. -/
def symC3b : RawSymbol :=
  { name := "w", value := 0, sectionNumber := 1, storageClass := 2,
    storageMappingClass := 5 }

/-- Concrete input: a Text section whose single relocation is `R_POS` with
raw length 32 instead of the required 64. -/
def fileC4 : XcoffFile :=
  { sections := [
      { name := "t", typ := 0x20, size := 2,
        relocs := [
          { virtualAddress := 0, symbolName := "x", symbolValue := 7, length := 32,
            typ := 0 }],
        payload := [0, 0], dataErr := none }],
    symbols := [] }

/-- Concrete input: a Data section whose single `R_RBR` relocation has
virtual address `2 ^ 31`, outside the signed 32-bit range. -/
def fileC5 : XcoffFile :=
  { sections := [
      { name := "d", typ := 0x40, size := 1,
        relocs := [
          { virtualAddress := 2 ^ 31, symbolName := "y", symbolValue := 0, length := 26,
            typ := 0x1A }],
        payload := [9], dataErr := none }],
    symbols := [] }

/-- Concrete input: a Bss section whose declared size `2 ^ 63` does not fit
in a signed 64-bit integer. -/
def fileC8c : XcoffFile :=
  { sections := [
      { name := "b", typ := 0x80, size := 2 ^ 63, relocs := [], payload := [],
        dataErr := none }],
    symbols := [] }

/-- Concrete input for the classifier bounds question: one Text section. -/
def fileC9 : XcoffFile :=
  { sections := [
      { name := "t", typ := 0x20, size := 0, relocs := [], payload := [],
        dataErr := none }],
    symbols := [] }

/-- Raw symbol with section reference `-1` (neither sentinel, below the
valid index range). -/
def symC9neg : RawSymbol :=
  { name := "z", value := 0, sectionNumber := -1, storageClass := 2,
    storageMappingClass := 0 }

/-- Raw symbol with section reference `5`, above the one-section file's
valid index range. -/
def symC9big : RawSymbol :=
  { name := "z", value := 0, sectionNumber := 5, storageClass := 2,
    storageMappingClass := 0 }

/-- Concrete Text section used to instantiate the retention theorems. -/
def sectC6t : RawSection :=
  { name := "t", typ := 0x20, size := 1, relocs := [], payload := [7], dataErr := none }

/-- Concrete Dwarf section (type outside the retained range). -/
def sectC6dw : RawSection :=
  { name := "dw", typ := 0x10, size := 4, relocs := [], payload := [], dataErr := none }

/-- Concrete input: one Text section and one Dwarf section. -/
def fileC6w : XcoffFile := { sections := [sectC6t, sectC6dw], symbols := [] }

/-- Concrete `R_POS` relocation entry with the required length 64. -/
def rxC7 : RawReloc :=
  { virtualAddress := 8, symbolName := "g", symbolValue := 3, length := 64, typ := 0 }

/-- Concrete Data section with a single relocation entry. -/
def sectC7d : RawSection :=
  { name := "d", typ := 0x40, size := 2, relocs := [rxC7], payload := [1, 2],
    dataErr := none }

/-- Concrete Bss section without relocation entries. -/
def sectC7b : RawSection :=
  { name := "b", typ := 0x80, size := 4, relocs := [], payload := [], dataErr := none }

/-- Concrete input: a Data section with one relocation plus a Bss section. -/
def fileC7w : XcoffFile := { sections := [sectC7d, sectC7b], symbols := [] }

/-- Concrete Text section with a 3-byte payload. -/
def sectC8t : RawSection :=
  { name := "t", typ := 0x20, size := 3, relocs := [], payload := [9, 9, 9],
    dataErr := none }

/-- Concrete Bss section of declared size 5. -/
def sectC8b : RawSection :=
  { name := "b", typ := 0x80, size := 5, relocs := [], payload := [], dataErr := none }

/-- Concrete input: a Text section and a Bss section. -/
def fileC8w : XcoffFile := { sections := [sectC8t, sectC8b], symbols := [] }

/-- The Bss section of `fileC3b`, for instantiating the classifier theorem. -/
def sectC3bSec : RawSection :=
  { name := "b", typ := 0x80, size := 8, relocs := [], payload := [], dataErr := none }

/-- C1: the claim says every decode failure detected during `Load` is
surfaced as `Load`'s error result and no loop continues past a failure.
The code violates this: every `errorf` call site discards the error value
it builds.  On `fileC1`, whose only relocation has an unrecognised type,
`Load` returns success and keeps the zero-filled relocation record instead
of failing. -/
theorem C1_decode_failure_not_surfaced :
    (Load emptySymbols "p" fileC1).1 = .ok [] ∧
    (Load emptySymbols "p" fileC1).2.find ("p(d)", 1) =
      some { typ := .SNOPTRDATA, size := 4, attrOnList := false, p := some [1, 2, 3, 4],
             r := [{ off := 0, siz := 0, typ := .RNONE, add := 0, sym := ("t", 0) }] } :=
  ⟨rfl, rfl⟩

/-- C2: the claim says a second append of the same Text symbol produces a
duplicate-symbol failure.  The code builds that failure with `errorf` but
discards it and appends the symbol again: on `fileC2` (two raw entries for
the global Text symbol `foo`) `Load` succeeds and returns `foo` twice. -/
theorem C2_duplicate_text_symbol_appended_twice :
    (Load symsC2 "p" fileC2).1 = .ok [("foo", 0), ("foo", 0)] := rfl

/-- C3 counterexample: the claim says the classifier assigns read/write
symbols over Data/Bss the same "non-pointer data" kind the Section
Extractor assigns to a Data section.  On `fileC3` the classifier returns
`SDATA` while the extractor gives the section symbol kind `SNOPTRDATA`,
and those two kinds are distinct. -/
theorem C3_classifier_kind_differs_from_extractor :
    getSymbolType fileC3 symC3 = .res .SDATA "" ∧
    getSymbolType fileC3b symC3b = .res .SDATA "" ∧
    (Load emptySymbols "p" fileC3).2.find ("p(d)", 1) =
      some { typ := .SNOPTRDATA, size := 1, attrOnList := false, p := some [5], r := [] } ∧
    SymKind.SDATA ≠ SymKind.SNOPTRDATA :=
  ⟨rfl, rfl, rfl, by decide⟩

/-- C4: the claim says an `R_POS` relocation whose raw length differs from
64 is a fatal decode failure.  The code builds the failure with `errorf`,
discards it, and still emits the 8-byte constant-address record: on
`fileC4` (length 32) `Load` succeeds and the record carries size 8, kind
`R_CONST`, addend 7. -/
theorem C4_rpos_bad_length_not_fatal :
    (Load emptySymbols "p" fileC4).1 = .ok [] ∧
    (Load emptySymbols "p" fileC4).2.find ("p(t)", 1) =
      some { typ := .STEXT, size := 2, attrOnList := false, p := some [0, 0],
             r := [{ off := 0, siz := 8, typ := .RCONST, add := 7, sym := ("x", 0) }] } :=
  ⟨rfl, rfl⟩

/-- C5: the claim says a relocation virtual address outside the signed
32-bit range is a fatal decode failure and no truncated record is
produced.  The code builds the failure with `errorf`, discards it, and
stores the truncated offset: on `fileC5` (virtual address `2 ^ 31`) `Load`
succeeds and the record's offset is `-2 ^ 31`. -/
theorem C5_reloc_offset_overflow_truncated :
    toUInt64 (toInt32 (2 ^ 31)) ≠ 2 ^ 31 ∧
    (Load emptySymbols "p" fileC5).1 = .ok [] ∧
    (Load emptySymbols "p" fileC5).2.find ("p(d)", 1) =
      some { typ := .SNOPTRDATA, size := 1, attrOnList := false, p := some [9],
             r := [{ off := -2147483648, siz := 4, typ := .RCALLPOWER, add := 0,
                     sym := ("y", 0) }] } :=
  ⟨by decide, rfl, rfl⟩

/-- C8 counterexample: the claim says the canonical symbol's size equals
the section's declared byte size for every retained section.  A Bss
section with declared size `2 ^ 63` (no payload read happens for Bss, so
nothing else fails) yields a symbol whose `int64` size is `-2 ^ 63`. -/
theorem C8_size_wraps_at_int64 :
    (Load emptySymbols "p" fileC8c).1 = .ok [] ∧
    (Load emptySymbols "p" fileC8c).2.find ("p(b)", 1) =
      some { typ := .SNOPTRBSS, size := -9223372036854775808, attrOnList := false,
             p := none, r := [] } ∧
    (-9223372036854775808 : Int) ≠ ((2 ^ 63 : Nat) : Int) :=
  ⟨rfl, rfl, by decide⟩

/-- C9: symbol classification is not total: a raw symbol whose section
reference is neither `-2` nor `0` but outside the file's section list
(here `-1`, and `5` against a one-section file) drives the section lookup
out of bounds, reaching the explicit out-of-range branch of the total
embedding rather than a skip or a decode failure. -/
theorem C9_classifier_lookup_out_of_bounds :
    symC9neg.sectionNumber ≠ -2 ∧ symC9neg.sectionNumber ≠ 0 ∧
    getSymbolType fileC9 symC9neg = .indexOutOfRange ∧
    symC9big.sectionNumber ≠ -2 ∧ symC9big.sectionNumber ≠ 0 ∧
    getSymbolType fileC9 symC9big = .indexOutOfRange :=
  ⟨by decide, by decide, rfl, by decide, by decide, rfl⟩

/-! Association-table lemmas. -/

theorem tblFind_update_self (l : List ((String × Nat) × Symbol)) (k : String × Nat)
    (g : Symbol → Symbol) : tblFind (tblUpdate l k g) k = (tblFind l k).map g := by
  induction l with
  | nil => rfl
  | cons kv t ih =>
    by_cases hk : kv.1 = k
    · simp [tblUpdate, tblFind, hk]
    · simp [tblUpdate, tblFind, hk, ih]

theorem tblFind_update_ne (l : List ((String × Nat) × Symbol)) {k k' : String × Nat}
    (g : Symbol → Symbol) (h : k' ≠ k) :
    tblFind (tblUpdate l k g) k' = tblFind l k' := by
  induction l with
  | nil => rfl
  | cons kv t ih =>
    have hcond : ¬k = k' := fun he => h he.symm
    by_cases hk : kv.1 = k
    · simp [tblUpdate, tblFind, hk, hcond, ih]
    · by_cases hk2 : kv.1 = k'
      · simp [tblUpdate, tblFind, hk, hk2, h]
      · simp [tblUpdate, tblFind, hk, hk2, ih]

theorem tblFind_append_none {l1 : List ((String × Nat) × Symbol)} {k : String × Nat}
    (h : tblFind l1 k = none) (l2 : List ((String × Nat) × Symbol)) :
    tblFind (l1 ++ l2) k = tblFind l2 k := by
  induction l1 with
  | nil => rfl
  | cons kv t ih =>
    by_cases hk : kv.1 = k
    · simp [tblFind, hk] at h
    · simp [tblFind, hk] at h ⊢
      exact ih h

theorem tblFind_append_some {l1 : List ((String × Nat) × Symbol)} {k : String × Nat}
    {x : Symbol} (h : tblFind l1 k = some x) (l2 : List ((String × Nat) × Symbol)) :
    tblFind (l1 ++ l2) k = some x := by
  induction l1 with
  | nil => simp [tblFind] at h
  | cons kv t ih =>
    by_cases hk : kv.1 = k
    · simp [tblFind, hk] at h ⊢; exact h
    · simp [tblFind, hk] at h ⊢; exact ih h

/-! Symbol-namespace lemmas. -/

theorem find_update_self (s : Symbols) (k : String × Nat) (g : Symbol → Symbol) :
    (s.update k g).find k = (s.find k).map g :=
  tblFind_update_self s.table k g

theorem find_update_ne (s : Symbols) {k k' : String × Nat} (g : Symbol → Symbol)
    (h : k' ≠ k) : (s.update k g).find k' = s.find k' :=
  tblFind_update_ne s.table g h

theorem Lookup_fst_none {s : Symbols} {n : String} {v : Nat}
    (h : s.find (n, v) = none) : (s.Lookup n v).1 = Symbol.empty := by
  simp [Symbols.Lookup, h]

theorem Lookup_fst_some {s : Symbols} {n : String} {v : Nat} {x : Symbol}
    (h : s.find (n, v) = some x) : (s.Lookup n v).1 = x := by
  simp [Symbols.Lookup, h]

theorem find_Lookup_self (s : Symbols) (n : String) (v : Nat) :
    ((s.Lookup n v).2).find (n, v) = some ((s.Lookup n v).1) := by
  cases h : s.find (n, v) with
  | some x => simp [Symbols.Lookup, h]
  | none =>
    simp only [Symbols.Lookup, h]
    show tblFind (s.table ++ [((n, v), Symbol.empty)]) (n, v) = some Symbol.empty
    rw [tblFind_append_none h]
    simp [tblFind]

theorem find_Lookup_ne (s : Symbols) {n : String} {v : Nat} {k : String × Nat}
    (h : k ≠ (n, v)) : ((s.Lookup n v).2).find k = s.find k := by
  cases hf : s.find (n, v) with
  | some x => simp [Symbols.Lookup, hf]
  | none =>
    simp only [Symbols.Lookup, hf]
    show tblFind (s.table ++ [((n, v), Symbol.empty)]) k = s.find k
    cases h2 : s.find k with
    | some y => exact tblFind_append_some h2 _
    | none =>
      rw [tblFind_append_none h2]
      simp only [tblFind]
      rw [if_neg (fun he => h he.symm)]

theorem find_Lookup_of_some {s : Symbols} {k : String × Nat} {x : Symbol}
    (h : s.find k = some x) (n : String) (v : Nat) :
    ((s.Lookup n v).2).find k = some x := by
  by_cases hk : k = (n, v)
  · subst hk
    rw [find_Lookup_self, Lookup_fst_some h]
  · rw [find_Lookup_ne s hk, h]

/-! Section-extractor lemmas. -/

theorem keyOf_name_inj {pkg : String} {ver : Nat} {s1 s2 : RawSection}
    (h : keyOf pkg ver s1 = keyOf pkg ver s2) : s1.name = s2.name := by
  have h2 : (pkg ++ "(" ++ s1.name ++ ")").data = (pkg ++ "(" ++ s2.name ++ ")").data :=
    congrArg String.data (congrArg Prod.fst h)
  simp only [String.data_append] at h2
  have h3 := List.append_cancel_left (List.append_cancel_right h2)
  exact String.ext h3

theorem sectionStep_find_ne (pkg : String) (ver : Nat) (sect : RawSection)
    (syms : Symbols) {k : String × Nat} (h : k ≠ keyOf pkg ver sect) :
    (sectionStep pkg ver sect syms).find k = syms.find k := by
  have h' : k ≠ ((keyOf pkg ver sect).1, ver) := h
  simp only [sectionStep]
  rw [find_update_ne _ _ h]
  split_ifs
  · rw [find_update_ne _ _ h, find_Lookup_ne _ h']
  · rw [find_update_ne _ _ h, find_Lookup_ne _ h']
  · rw [find_update_ne _ _ h, find_Lookup_ne _ h']
  · rw [find_Lookup_ne _ h']

theorem sectionStep_find_fresh (pkg : String) (ver : Nat) (sect : RawSection)
    (syms : Symbols) (h : syms.find (keyOf pkg ver sect) = none) :
    (sectionStep pkg ver sect syms).find (keyOf pkg ver sect) =
      some (mkSectSymPre sect) := by
  have h0 : syms.find ((keyOf pkg ver sect).1, ver) = none := h
  have h1 : ((syms.Lookup (keyOf pkg ver sect).1 ver).2).find (keyOf pkg ver sect) =
      some Symbol.empty := by
    have h2 := find_Lookup_self syms (keyOf pkg ver sect).1 ver
    rw [Lookup_fst_none h0] at h2
    exact h2
  simp only [sectionStep]
  split_ifs with ht hd hb
  · rw [find_update_self, find_update_self, h1]
    simp [mkSectSymPre, sectKind, ht, Symbol.empty]
  · rw [find_update_self, find_update_self, h1]
    simp [mkSectSymPre, sectKind, ht, hd, Symbol.empty, STYP_TEXT, STYP_DATA]
  · rw [find_update_self, find_update_self, h1]
    simp [mkSectSymPre, sectKind, ht, hd, hb, Symbol.empty, STYP_TEXT, STYP_DATA,
      STYP_BSS]
  · rw [find_update_self, h1]
    simp [mkSectSymPre, sectKind, ht, hd, hb, Symbol.empty]

theorem loadSections_find_preserve (pkg : String) (ver : Nat) :
    ∀ (sections : List RawSection) (syms : Symbols) (k : String × Nat),
      (∀ sect ∈ sections, k ≠ keyOf pkg ver sect) →
      ((loadSections pkg ver sections syms).2).find k = syms.find k := by
  intro sections
  induction sections with
  | nil => intro syms k _; rfl
  | cons sect rest ih =>
    intro syms k hks
    have hk : k ≠ keyOf pkg ver sect := hks sect (List.mem_cons_self _ _)
    have hkr : ∀ s ∈ rest, k ≠ keyOf pkg ver s :=
      fun s hs => hks s (List.mem_cons_of_mem _ hs)
    by_cases hr : sect.typ < STYP_TEXT ∨ STYP_BSS < sect.typ
    · simp only [loadSections]
      rw [if_pos hr]
      exact ih syms k hkr
    · simp only [loadSections]
      rw [if_neg hr]
      split
      · split
        · exact sectionStep_find_ne pkg ver sect syms hk
        · rename_i data hdata
          split
          all_goals
            rename_i heq
            have h5 := ih ((sectionStep pkg ver sect syms).update (keyOf pkg ver sect)
              (fun s => { s with p := some data })) k hkr
            rw [heq] at h5
            simp only at h5
            rw [h5, find_update_ne _ _ hk]
            exact sectionStep_find_ne pkg ver sect syms hk
      · split
        all_goals
          rename_i heq
          have h5 := ih (sectionStep pkg ver sect syms) k hkr
          rw [heq] at h5
          simp only at h5
          rw [h5]
          exact sectionStep_find_ne pkg ver sect syms hk

theorem loadSections_lds (pkg : String) (ver : Nat) :
    ∀ (sections : List RawSection) (syms : Symbols) (lds : List LdSection)
      (syms1 : Symbols),
      loadSections pkg ver sections syms = (.ok lds, syms1) →
      lds = (sections.filter
          (fun s => decide (STYP_TEXT ≤ s.typ ∧ s.typ ≤ STYP_BSS))).map
        (fun s => { sec := s, symKey := keyOf pkg ver s }) := by
  intro sections
  induction sections with
  | nil =>
    intro syms lds syms1 h
    simp only [loadSections] at h
    injection h with h1 _
    injection h1 with h1
    simp [h1.symm]
  | cons sect rest ih =>
    intro syms lds syms1 h
    by_cases hr : sect.typ < STYP_TEXT ∨ STYP_BSS < sect.typ
    · have hnr : ¬(STYP_TEXT ≤ sect.typ ∧ sect.typ ≤ STYP_BSS) := by omega
      simp only [loadSections] at h
      rw [if_pos hr] at h
      rw [List.filter_cons_of_neg (by simpa using hnr)]
      exact ih syms lds syms1 h
    · have hnr : STYP_TEXT ≤ sect.typ ∧ sect.typ ≤ STYP_BSS := by omega
      simp only [loadSections] at h
      rw [if_neg hr] at h
      rw [List.filter_cons_of_pos (by simpa using hnr)]
      split at h
      · split at h
        · exact absurd h (by simp)
        · split at h
          · exact absurd h (by simp)
          · rename_i heq
            injection h with h1 h2
            injection h1 with h1
            rw [← h1]
            simp only [List.map_cons]
            rw [ih _ _ _ heq]
      · split at h
        · exact absurd h (by simp)
        · rename_i heq
          injection h with h1 h2
          injection h1 with h1
          rw [← h1]
          simp only [List.map_cons]
          rw [ih _ _ _ heq]

theorem mkSectSym_of_ne {sect : RawSection} (h : ¬sectKind sect = .SNOPTRBSS) :
    mkSectSym sect = { mkSectSymPre sect with p := some sect.payload } := by
  simp [mkSectSym, mkSectSymPre, h]

theorem mkSectSym_of_eq {sect : RawSection} (h : sectKind sect = .SNOPTRBSS) :
    mkSectSym sect = mkSectSymPre sect := by
  simp [mkSectSym, mkSectSymPre, h]

theorem loadSections_sym_spec (pkg : String) (ver : Nat) :
    ∀ (sections : List RawSection) (syms : Symbols) (lds : List LdSection)
      (syms1 : Symbols),
      loadSections pkg ver sections syms = (.ok lds, syms1) →
      (sections.map RawSection.name).Nodup →
      (∀ sect ∈ sections, syms.find (keyOf pkg ver sect) = none) →
      ∀ sect ∈ sections,
        (¬(sect.typ < STYP_TEXT ∨ STYP_BSS < sect.typ) →
          syms1.find (keyOf pkg ver sect) = some (mkSectSym sect)) ∧
        ((sect.typ < STYP_TEXT ∨ STYP_BSS < sect.typ) →
          syms1.find (keyOf pkg ver sect) = none) := by
  intro sections
  induction sections with
  | nil =>
    intro syms lds syms1 h hnd hfresh sect hmem
    simp at hmem
  | cons sect0 rest ih =>
    intro syms lds syms1 h hnd hfresh sect hmem
    simp only [List.map_cons, List.nodup_cons] at hnd
    obtain ⟨hnd1, hnd2⟩ := hnd
    have hkey0 : ∀ s ∈ rest, keyOf pkg ver sect0 ≠ keyOf pkg ver s := by
      intro s hs he
      exact hnd1 (by rw [keyOf_name_inj he]; exact List.mem_map_of_mem _ hs)
    have hfresh0 : syms.find (keyOf pkg ver sect0) = none :=
      hfresh sect0 (List.mem_cons_self _ _)
    have hfreshr : ∀ s ∈ rest, syms.find (keyOf pkg ver s) = none :=
      fun s hs => hfresh s (List.mem_cons_of_mem _ hs)
    by_cases hr : sect0.typ < STYP_TEXT ∨ STYP_BSS < sect0.typ
    · simp only [loadSections] at h
      rw [if_pos hr] at h
      cases hmem with
      | head =>
        refine ⟨fun hc => absurd hr hc, fun _ => ?_⟩
        have hp := loadSections_find_preserve pkg ver rest syms (keyOf pkg ver sect0) hkey0
        rw [h] at hp
        simp only at hp
        rw [hp]
        exact hfresh0
      | tail _ hmem2 => exact ih syms lds syms1 h hnd2 hfreshr sect hmem2
    · simp only [loadSections] at h
      rw [if_neg hr] at h
      have hstep := sectionStep_find_fresh pkg ver sect0 syms hfresh0
      split at h
      · rename_i hcond
        rw [hstep] at hcond
        simp only [Option.getD_some, mkSectSymPre] at hcond
        split at h
        · exact absurd h (by simp)
        · rename_i data hdata
          have hpay : data = sect0.payload := by
            unfold RawSection.Data at hdata
            cases hde : sect0.dataErr with
            | some e => rw [hde] at hdata; exact absurd hdata (by simp)
            | none => rw [hde] at hdata; injection hdata with h2; exact h2.symm
          split at h
          · exact absurd h (by simp)
          · rename_i lds2 syms5 heq
            injection h with h1 h2
            subst h2
            have hfreshr4 : ∀ s ∈ rest,
                ((sectionStep pkg ver sect0 syms).update (keyOf pkg ver sect0)
                  (fun s => { s with p := some data })).find (keyOf pkg ver s) = none := by
              intro s hs
              rw [find_update_ne _ _ (Ne.symm (hkey0 s hs)),
                sectionStep_find_ne pkg ver sect0 syms (Ne.symm (hkey0 s hs))]
              exact hfreshr s hs
            cases hmem with
            | head =>
              refine ⟨fun _ => ?_, fun hc => absurd hc hr⟩
              have hp := loadSections_find_preserve pkg ver rest
                ((sectionStep pkg ver sect0 syms).update (keyOf pkg ver sect0)
                  (fun s => { s with p := some data })) (keyOf pkg ver sect0) hkey0
              rw [heq] at hp
              simp only at hp
              rw [hp, find_update_self, hstep, hpay, mkSectSym_of_ne hcond]
              rfl
            | tail _ hmem2 =>
              exact ih _ lds2 syms5 heq hnd2 hfreshr4 sect hmem2
      · rename_i hcond
        rw [hstep] at hcond
        simp only [Option.getD_some, mkSectSymPre, not_not] at hcond
        split at h
        · exact absurd h (by simp)
        · rename_i lds2 syms5 heq
          injection h with h1 h2
          subst h2
          have hfreshr3 : ∀ s ∈ rest,
              (sectionStep pkg ver sect0 syms).find (keyOf pkg ver s) = none := by
            intro s hs
            rw [sectionStep_find_ne pkg ver sect0 syms (Ne.symm (hkey0 s hs))]
            exact hfreshr s hs
          cases hmem with
          | head =>
            refine ⟨fun _ => ?_, fun hc => absurd hc hr⟩
            have hp := loadSections_find_preserve pkg ver rest
              (sectionStep pkg ver sect0 syms) (keyOf pkg ver sect0) hkey0
            rw [heq] at hp
            simp only at hp
            rw [hp, hstep, mkSectSym_of_eq hcond]
          | tail _ hmem2 =>
            exact ih _ lds2 syms5 heq hnd2 hfreshr3 sect hmem2

/-! Symbol-classifier loop lemmas. -/

theorem loadSymbols_find_nonzero (f : XcoffFile) :
    ∀ (rest : List RawSymbol) (acc : List (String × Nat)) (syms : Symbols)
      (k : String × Nat), k.2 ≠ 0 →
      ((loadSymbols f rest acc syms).2).find k = syms.find k := by
  intro rest
  induction rest with
  | nil => intro acc syms k _; rfl
  | cons sx rest2 ih =>
    intro acc syms k hk
    have hkne : k ≠ (sx.name, 0) := by
      intro he; rw [he] at hk; exact hk rfl
    simp only [loadSymbols]
    split
    · rfl
    · split
      · exact ih acc syms k hk
      · split
        · rw [ih _ _ _ hk, find_update_ne _ _ hkne, find_Lookup_ne _ hkne]
        · rw [ih _ _ _ hk, find_Lookup_ne _ hkne]

theorem loadSymbols_textp_spec (f : XcoffFile) :
    ∀ (rest : List RawSymbol) (acc : List (String × Nat)) (syms : Symbols)
      (out : List (String × Nat)) (syms2 : Symbols),
      loadSymbols f rest acc syms = (some out, syms2) →
      (∀ k ∈ acc, ∃ s, syms.find k = some s ∧ s.typ = .STEXT ∧ s.attrOnList = true) →
      ∀ k ∈ out,
        (k ∈ acc ∨ (k.2 = 0 ∧ ∃ sx ∈ rest, sx.name = k.1)) ∧
        ∃ s, syms2.find k = some s ∧ s.typ = .STEXT ∧ s.attrOnList = true := by
  intro rest
  induction rest with
  | nil =>
    intro acc syms out syms2 h hacc k hkout
    simp only [loadSymbols] at h
    injection h with h1 h2
    have hao : acc = out := by injection h1
    subst hao
    subst h2
    exact ⟨Or.inl hkout, hacc k hkout⟩
  | cons sx rest2 ih =>
    intro acc syms out syms2 h hacc k hkout
    simp only [loadSymbols] at h
    split at h
    · exact absurd h (by simp)
    · split at h
      · obtain ⟨horg, hP⟩ := ih acc syms out syms2 h hacc k hkout
        refine ⟨?_, hP⟩
        rcases horg with hin | ⟨h0, sx2, hsx2, hname⟩
        · exact Or.inl hin
        · exact Or.inr ⟨h0, sx2, List.mem_cons_of_mem _ hsx2, hname⟩
      · split at h
        · rename_i hst
          have haccU : ∀ k' ∈ acc ++ [(sx.name, 0)],
              ∃ s, (((Symbols.Lookup syms sx.name 0).2).update (sx.name, 0)
                  (fun t => { t with attrOnList := true })).find k' = some s ∧
                s.typ = .STEXT ∧ s.attrOnList = true := by
            intro k' hk'
            rcases List.mem_append.mp hk' with hk1 | hk2
            · obtain ⟨s0, hs0, hty, hol⟩ := hacc k' hk1
              by_cases he : k' = (sx.name, 0)
              · subst he
                rw [find_update_self, find_Lookup_of_some hs0]
                exact ⟨{ s0 with attrOnList := true }, rfl, hty, rfl⟩
              · rw [find_update_ne _ _ he, find_Lookup_of_some hs0]
                exact ⟨s0, rfl, hty, hol⟩
            · have he : k' = (sx.name, 0) := by simpa using hk2
              subst he
              rw [find_update_self, find_Lookup_self]
              exact ⟨_, rfl, by simpa using hst, rfl⟩
          obtain ⟨horg, hP⟩ := ih _ _ out syms2 h haccU k hkout
          refine ⟨?_, hP⟩
          rcases horg with hin | ⟨h0, sx2, hsx2, hname⟩
          · rcases List.mem_append.mp hin with hk1 | hk2
            · exact Or.inl hk1
            · have hke : k = (sx.name, 0) := by simpa using hk2
              exact Or.inr ⟨by rw [hke], sx, List.mem_cons_self _ _, by rw [hke]⟩
          · exact Or.inr ⟨h0, sx2, List.mem_cons_of_mem _ hsx2, hname⟩
        · have haccL : ∀ k' ∈ acc,
              ∃ s, ((Symbols.Lookup syms sx.name 0).2).find k' = some s ∧
                s.typ = .STEXT ∧ s.attrOnList = true := by
            intro k' hk'
            obtain ⟨s0, hs0, hty, hol⟩ := hacc k' hk'
            exact ⟨s0, find_Lookup_of_some hs0 _ _, hty, hol⟩
          obtain ⟨horg, hP⟩ := ih _ _ out syms2 h haccL k hkout
          refine ⟨?_, hP⟩
          rcases horg with hin | ⟨h0, sx2, hsx2, hname⟩
          · exact Or.inl hin
          · exact Or.inr ⟨h0, sx2, List.mem_cons_of_mem _ hsx2, hname⟩

/-! Relocation-translator lemmas. -/

theorem translateRelocs_fst :
    ∀ (rxs : List RawReloc) (syms : Symbols),
      (translateRelocs syms rxs).1 = rxs.map translateReloc1 := by
  intro rxs
  induction rxs with
  | nil => intro syms; rfl
  | cons rx rest ih =>
    intro syms
    have h1 := ih ((Symbols.Lookup syms rx.symbolName 0).2)
    rcases htr : translateRelocs ((Symbols.Lookup syms rx.symbolName 0).2) rest with ⟨rs, symsA⟩
    rw [htr] at h1
    simp only at h1
    simp only [translateRelocs, htr, List.map_cons]
    exact congrArg _ h1

theorem translateRelocs_find_of_some :
    ∀ (rxs : List RawReloc) {syms : Symbols} {k : String × Nat} {x : Symbol},
      syms.find k = some x → ((translateRelocs syms rxs).2).find k = some x := by
  intro rxs
  induction rxs with
  | nil => intro syms k x h; exact h
  | cons rx rest ih =>
    intro syms k x h
    have h1 := ih (find_Lookup_of_some h rx.symbolName 0)
    rcases htr : translateRelocs ((Symbols.Lookup syms rx.symbolName 0).2) rest with ⟨rs, symsA⟩
    rw [htr] at h1
    simp only at h1
    simp only [translateRelocs, htr]
    exact h1

theorem translateRelocs_find_nonzero :
    ∀ (rxs : List RawReloc) (syms : Symbols) (k : String × Nat), k.2 ≠ 0 →
      ((translateRelocs syms rxs).2).find k = syms.find k := by
  intro rxs
  induction rxs with
  | nil => intro syms k _; rfl
  | cons rx rest ih =>
    intro syms k hk
    have hkne : k ≠ (rx.symbolName, 0) := by
      intro he; rw [he] at hk; exact hk rfl
    have h1 := ih ((Symbols.Lookup syms rx.symbolName 0).2) k hk
    rcases htr : translateRelocs ((Symbols.Lookup syms rx.symbolName 0).2) rest with ⟨rs, symsA⟩
    rw [htr] at h1
    simp only at h1
    simp only [translateRelocs, htr]
    rw [h1, find_Lookup_ne _ hkne]

theorem loadRelocSections_find_nonzero :
    ∀ (lds : List LdSection) (syms : Symbols) (k : String × Nat), k.2 ≠ 0 →
      (∀ l ∈ lds, l.symKey ≠ k) →
      (loadRelocSections lds syms).find k = syms.find k := by
  intro lds
  induction lds with
  | nil => intro syms k _ _; rfl
  | cons l0 rest ih =>
    intro syms k hk hkey
    have hk0 : l0.symKey ≠ k := hkey l0 (List.mem_cons_self _ _)
    have hkeyr : ∀ l ∈ rest, l.symKey ≠ k :=
      fun l hl => hkey l (List.mem_cons_of_mem _ hl)
    simp only [loadRelocSections]
    split
    · exact ih syms k hk hkeyr
    · rcases htr : translateRelocs syms l0.sec.relocs with ⟨rs, symsA⟩
      simp only [htr]
      rw [ih _ k hk hkeyr, find_update_ne _ _ (Ne.symm hk0)]
      have h1 := translateRelocs_find_nonzero l0.sec.relocs syms k hk
      rw [htr] at h1
      exact h1

theorem loadRelocSections_find_nokey_some :
    ∀ (lds : List LdSection) {syms : Symbols} {k : String × Nat} {x : Symbol},
      (∀ l ∈ lds, l.symKey ≠ k) → syms.find k = some x →
      (loadRelocSections lds syms).find k = some x := by
  intro lds
  induction lds with
  | nil => intro syms k x _ h; exact h
  | cons l0 rest ih =>
    intro syms k x hkey h
    have hk0 : l0.symKey ≠ k := hkey l0 (List.mem_cons_self _ _)
    have hkeyr : ∀ l ∈ rest, l.symKey ≠ k :=
      fun l hl => hkey l (List.mem_cons_of_mem _ hl)
    simp only [loadRelocSections]
    split
    · exact ih hkeyr h
    · rcases htr : translateRelocs syms l0.sec.relocs with ⟨rs, symsA⟩
      simp only [htr]
      apply ih hkeyr
      rw [find_update_ne _ _ (Ne.symm hk0)]
      have h1 := translateRelocs_find_of_some l0.sec.relocs h
      rw [htr] at h1
      exact h1

theorem loadRelocSections_skipped :
    ∀ (lds : List LdSection) {syms : Symbols} (l : LdSection) {x : Symbol},
      l ∈ lds → (l.sec.typ ≠ STYP_TEXT ∧ l.sec.typ ≠ STYP_DATA) →
      (lds.map LdSection.symKey).Nodup → syms.find l.symKey = some x →
      (loadRelocSections lds syms).find l.symKey = some x := by
  intro lds
  induction lds with
  | nil => intro syms l x hl; cases hl
  | cons l0 rest ih =>
    intro syms l x hl hskip hnd h
    simp only [List.map_cons, List.nodup_cons] at hnd
    obtain ⟨hnd1, hnd2⟩ := hnd
    cases hl with
    | head =>
      simp only [loadRelocSections]
      rw [if_pos hskip]
      have hkeyr : ∀ l2 ∈ rest, l2.symKey ≠ l0.symKey := by
        intro l2 hl2 he
        exact hnd1 (by rw [← he]; exact List.mem_map_of_mem _ hl2)
      exact loadRelocSections_find_nokey_some rest hkeyr h
    | tail _ hl2 =>
      have hne : l.symKey ≠ l0.symKey := by
        intro he
        exact hnd1 (by rw [← he]; exact List.mem_map_of_mem _ hl2)
      simp only [loadRelocSections]
      split
      · exact ih l hl2 hskip hnd2 h
      · rcases htr : translateRelocs syms l0.sec.relocs with ⟨rs, symsA⟩
        simp only [htr]
        apply ih l hl2 hskip hnd2
        rw [find_update_ne _ _ hne]
        have h1 := translateRelocs_find_of_some l0.sec.relocs h
        rw [htr] at h1
        exact h1

theorem loadRelocSections_processed :
    ∀ (lds : List LdSection) {syms : Symbols} (l : LdSection) {x : Symbol},
      l ∈ lds → ¬(l.sec.typ ≠ STYP_TEXT ∧ l.sec.typ ≠ STYP_DATA) →
      (lds.map LdSection.symKey).Nodup → syms.find l.symKey = some x →
      (loadRelocSections lds syms).find l.symKey =
        some { x with r := l.sec.relocs.map translateReloc1 } := by
  intro lds
  induction lds with
  | nil => intro syms l x hl; cases hl
  | cons l0 rest ih =>
    intro syms l x hl hproc hnd h
    simp only [List.map_cons, List.nodup_cons] at hnd
    obtain ⟨hnd1, hnd2⟩ := hnd
    cases hl with
    | head =>
      simp only [loadRelocSections]
      rw [if_neg hproc]
      rcases htr : translateRelocs syms l0.sec.relocs with ⟨rs, symsA⟩
      simp only [htr]
      have hkeyr : ∀ l2 ∈ rest, l2.symKey ≠ l0.symKey := by
        intro l2 hl2 he
        exact hnd1 (by rw [← he]; exact List.mem_map_of_mem _ hl2)
      apply loadRelocSections_find_nokey_some rest hkeyr
      rw [find_update_self]
      have h1 := translateRelocs_find_of_some l0.sec.relocs h
      rw [htr] at h1
      simp only at h1
      rw [h1]
      have h2 := translateRelocs_fst l0.sec.relocs syms
      rw [htr] at h2
      simp only at h2
      rw [← h2]
      rfl
    | tail _ hl2 =>
      have hne : l.symKey ≠ l0.symKey := by
        intro he
        exact hnd1 (by rw [← he]; exact List.mem_map_of_mem _ hl2)
      simp only [loadRelocSections]
      split
      · exact ih l hl2 hproc hnd2 h
      · rcases htr : translateRelocs syms l0.sec.relocs with ⟨rs, symsA⟩
        simp only [htr]
        apply ih l hl2 hproc hnd2
        rw [find_update_ne _ _ hne]
        have h1 := translateRelocs_find_of_some l0.sec.relocs h
        rw [htr] at h1
        exact h1

/-! Assembly lemmas over the whole `Load` pipeline. -/

theorem tblFind_some_mem :
    ∀ (l : List ((String × Nat) × Symbol)) (k : String × Nat) (x : Symbol),
      tblFind l k = some x → (k, x) ∈ l := by
  intro l
  induction l with
  | nil => intro k x h; simp [tblFind] at h
  | cons kv t ih =>
    intro k x h
    by_cases hk : kv.1 = k
    · simp only [tblFind, if_pos hk] at h
      injection h with h1
      rw [← hk, ← h1]
      exact List.mem_cons_self _ _
    · simp only [tblFind, if_neg hk] at h
      exact List.mem_cons_of_mem _ (ih k x h)

theorem find_none_of_high_version {syms : Symbols} {b : Nat}
    (hwf : ∀ kv ∈ syms.table, kv.1.2 ≤ b) {n : String} {v : Nat} (hv : b < v) :
    syms.find (n, v) = none := by
  cases h : syms.find (n, v) with
  | none => rfl
  | some x =>
    have hmem := tblFind_some_mem syms.table (n, v) x h
    have := hwf _ hmem
    simp at this
    omega

theorem Load_ok_elim {syms0 : Symbols} {pkg : String} {f : XcoffFile}
    {textp : List (String × Nat)} {symsF : Symbols}
    (h : Load syms0 pkg f = (.ok textp, symsF)) :
    ∃ lds syms1 syms2,
      loadSections pkg (syms0.versions + 1) f.sections
        { syms0 with versions := syms0.versions + 1 } = (.ok lds, syms1) ∧
      loadSymbols f f.symbols [] syms1 = (some textp, syms2) ∧
      symsF = loadRelocSections lds syms2 := by
  simp only [Load, Symbols.IncVersion] at h
  split at h
  · exact absurd h (by simp)
  · rename_i lds syms1 heq1
    split at h
    · exact absurd h (by simp)
    · rename_i textp2 syms2 heq2
      injection h with h1 h2
      have h3 : textp2 = textp := by injection h1
      subst h3
      subst h2
      exact ⟨lds, syms1, syms2, heq1, heq2, rfl⟩

theorem lds_symKey_nodup (pkg : String) (ver : Nat) {sections : List RawSection}
    {syms syms1 : Symbols} {lds : List LdSection}
    (heq : loadSections pkg ver sections syms = (.ok lds, syms1))
    (hnd : (sections.map RawSection.name).Nodup) :
    (lds.map LdSection.symKey).Nodup := by
  have hlds := loadSections_lds pkg ver sections syms lds syms1 heq
  subst hlds
  rw [List.map_map]
  have hfn : (List.filter (fun s => decide (STYP_TEXT ≤ s.typ ∧ s.typ ≤ STYP_BSS))
      sections).map RawSection.name |>.Nodup :=
    hnd.sublist ((List.filter_sublist _).map _)
  have hfl : (List.filter (fun s => decide (STYP_TEXT ≤ s.typ ∧ s.typ ≤ STYP_BSS))
      sections).Nodup := hfn.of_map _
  apply hfl.map_on
  intro x hx y hy hxy
  exact List.inj_on_of_nodup_map hfn hx hy (keyOf_name_inj hxy)

theorem lds_mem_of_retained (pkg : String) (ver : Nat) {sections : List RawSection}
    {syms syms1 : Symbols} {lds : List LdSection}
    (heq : loadSections pkg ver sections syms = (.ok lds, syms1))
    {sect : RawSection} (hs : sect ∈ sections)
    (hr : ¬(sect.typ < STYP_TEXT ∨ STYP_BSS < sect.typ)) :
    ({ sec := sect, symKey := keyOf pkg ver sect } : LdSection) ∈ lds := by
  have hlds := loadSections_lds pkg ver sections syms lds syms1 heq
  subst hlds
  apply List.mem_map_of_mem
  apply List.mem_filter.mpr
  exact ⟨hs, by simp; omega⟩

theorem lds_symKey_ne_of_dropped (pkg : String) (ver : Nat) {sections : List RawSection}
    {syms syms1 : Symbols} {lds : List LdSection}
    (heq : loadSections pkg ver sections syms = (.ok lds, syms1))
    (hnd : (sections.map RawSection.name).Nodup)
    {sect : RawSection} (hs : sect ∈ sections)
    (hr : sect.typ < STYP_TEXT ∨ STYP_BSS < sect.typ) :
    ∀ l ∈ lds, l.symKey ≠ keyOf pkg ver sect := by
  have hlds := loadSections_lds pkg ver sections syms lds syms1 heq
  subst hlds
  intro l hl he
  obtain ⟨s2, hs2f, hmk⟩ := List.mem_map.mp hl
  rw [← hmk] at he
  have hn : s2.name = sect.name := keyOf_name_inj he
  obtain ⟨hs2mem, hpred⟩ := List.mem_filter.mp hs2f
  have hse : s2 = sect := List.inj_on_of_nodup_map hnd hs2mem hs hn
  subst hse
  simp at hpred
  omega

theorem Load_retained_final (syms0 : Symbols) (pkg : String) (f : XcoffFile)
    (textp : List (String × Nat)) (symsF : Symbols)
    (hwf : ∀ kv ∈ syms0.table, kv.1.2 ≤ syms0.versions)
    (hnd : (f.sections.map RawSection.name).Nodup)
    (h : Load syms0 pkg f = (.ok textp, symsF)) :
    ∀ sect ∈ f.sections, ¬(sect.typ < STYP_TEXT ∨ STYP_BSS < sect.typ) →
      ((sect.typ = STYP_TEXT ∨ sect.typ = STYP_DATA) →
        symsF.find (keyOf pkg (syms0.versions + 1) sect) =
          some { mkSectSym sect with r := sect.relocs.map translateReloc1 }) ∧
      (¬(sect.typ = STYP_TEXT ∨ sect.typ = STYP_DATA) →
        symsF.find (keyOf pkg (syms0.versions + 1) sect) = some (mkSectSym sect)) := by
  obtain ⟨lds, syms1, syms2, heq1, heq2, heqF⟩ := Load_ok_elim h
  intro sect hs hr
  have hfresh : ∀ s2 ∈ f.sections,
      ({ syms0 with versions := syms0.versions + 1 } : Symbols).find
        (keyOf pkg (syms0.versions + 1) s2) = none := by
    intro s2 _
    exact find_none_of_high_version hwf (Nat.lt_succ_self _)
  have hspec := loadSections_sym_spec pkg (syms0.versions + 1) f.sections _ lds syms1
    heq1 hnd hfresh sect hs
  have h1 : syms1.find (keyOf pkg (syms0.versions + 1) sect) = some (mkSectSym sect) :=
    hspec.1 hr
  have h2 : syms2.find (keyOf pkg (syms0.versions + 1) sect) = some (mkSectSym sect) := by
    have hz := loadSymbols_find_nonzero f f.symbols [] syms1
      (keyOf pkg (syms0.versions + 1) sect) (Nat.succ_ne_zero _)
    rw [heq2] at hz
    simp only at hz
    rw [hz, h1]
  have hnodup := lds_symKey_nodup pkg (syms0.versions + 1) heq1 hnd
  have hmem := lds_mem_of_retained pkg (syms0.versions + 1) heq1 hs hr
  constructor
  · intro htd
    have hproc : ¬(sect.typ ≠ STYP_TEXT ∧ sect.typ ≠ STYP_DATA) :=
      fun hc => htd.elim hc.1 hc.2
    rw [heqF]
    exact loadRelocSections_processed lds _ hmem hproc hnodup h2
  · intro hntd
    have hskip : sect.typ ≠ STYP_TEXT ∧ sect.typ ≠ STYP_DATA :=
      ⟨fun a => hntd (Or.inl a), fun b => hntd (Or.inr b)⟩
    rw [heqF]
    exact loadRelocSections_skipped lds _ hmem hskip hnodup h2

theorem Load_dropped_final (syms0 : Symbols) (pkg : String) (f : XcoffFile)
    (textp : List (String × Nat)) (symsF : Symbols)
    (hwf : ∀ kv ∈ syms0.table, kv.1.2 ≤ syms0.versions)
    (hnd : (f.sections.map RawSection.name).Nodup)
    (h : Load syms0 pkg f = (.ok textp, symsF)) :
    ∀ sect ∈ f.sections, (sect.typ < STYP_TEXT ∨ STYP_BSS < sect.typ) →
      symsF.find (keyOf pkg (syms0.versions + 1) sect) = none := by
  obtain ⟨lds, syms1, syms2, heq1, heq2, heqF⟩ := Load_ok_elim h
  intro sect hs hr
  have hfresh : ∀ s2 ∈ f.sections,
      ({ syms0 with versions := syms0.versions + 1 } : Symbols).find
        (keyOf pkg (syms0.versions + 1) s2) = none := by
    intro s2 _
    exact find_none_of_high_version hwf (Nat.lt_succ_self _)
  have hspec := loadSections_sym_spec pkg (syms0.versions + 1) f.sections _ lds syms1
    heq1 hnd hfresh sect hs
  have h1 : syms1.find (keyOf pkg (syms0.versions + 1) sect) = none := hspec.2 hr
  have h2 : syms2.find (keyOf pkg (syms0.versions + 1) sect) = none := by
    have hz := loadSymbols_find_nonzero f f.symbols [] syms1
      (keyOf pkg (syms0.versions + 1) sect) (Nat.succ_ne_zero _)
    rw [heq2] at hz
    simp only at hz
    rw [hz, h1]
  rw [heqF]
  rw [loadRelocSections_find_nonzero lds syms2 _ (Nat.succ_ne_zero _)
    (lds_symKey_ne_of_dropped pkg (syms0.versions + 1) heq1 hnd hs hr)]
  exact h2

theorem translateReloc1_sym (rx : RawReloc) :
    (translateReloc1 rx).sym = (rx.symbolName, 0) := by
  unfold translateReloc1
  split_ifs <;> rfl

theorem toInt64_of_lt {x : Nat} (h : x < 2 ^ 63) : toInt64 x = (x : Int) := by
  have h64 : x < 2 ^ 64 := by omega
  unfold toInt64
  rw [Nat.mod_eq_of_lt h64, if_pos h]

theorem sectKind_text {sect : RawSection} (h : sect.typ = STYP_TEXT) :
    sectKind sect = .STEXT := by
  simp [sectKind, h]

theorem sectKind_data {sect : RawSection} (h : sect.typ = STYP_DATA) :
    sectKind sect = .SNOPTRDATA := by
  simp [sectKind, h, STYP_TEXT, STYP_DATA]

theorem sectKind_bss {sect : RawSection} (h : sect.typ = STYP_BSS) :
    sectKind sect = .SNOPTRBSS := by
  simp [sectKind, h, STYP_TEXT, STYP_DATA, STYP_BSS]

/-- C6: a section is retained and given a canonical symbol iff its type lies
in `[STYP_TEXT, STYP_BSS]`; the symbol is interned under
`pkg ++ "(" ++ name ++ ")"` in the fresh local version scope minted for this
load, with Text mapped to `STEXT`, Data to `SNOPTRDATA` and Bss to
`SNOPTRBSS`, while a section outside the range (such as Debug or Dwarf)
contributes no symbol at all.  Stated for a successful load over a file
whose section names are distinct, starting from a namespace whose keys all
lie in already-minted version scopes. -/
theorem C6_section_retention (syms0 : Symbols) (pkg : String) (f : XcoffFile)
    (textp : List (String × Nat)) (symsF : Symbols)
    (hwf : ∀ kv ∈ syms0.table, kv.1.2 ≤ syms0.versions)
    (hnd : (f.sections.map RawSection.name).Nodup)
    (h : Load syms0 pkg f = (.ok textp, symsF)) :
    ∀ sect ∈ f.sections,
      ((STYP_TEXT ≤ sect.typ ∧ sect.typ ≤ STYP_BSS) →
        ∃ s, symsF.find (pkg ++ "(" ++ sect.name ++ ")", syms0.versions + 1) = some s ∧
          (sect.typ = STYP_TEXT → s.typ = .STEXT) ∧
          (sect.typ = STYP_DATA → s.typ = .SNOPTRDATA) ∧
          (sect.typ = STYP_BSS → s.typ = .SNOPTRBSS)) ∧
      (¬(STYP_TEXT ≤ sect.typ ∧ sect.typ ≤ STYP_BSS) →
        symsF.find (pkg ++ "(" ++ sect.name ++ ")", syms0.versions + 1) = none) := by
  intro sect hs
  constructor
  · intro hin
    have hr : ¬(sect.typ < STYP_TEXT ∨ STYP_BSS < sect.typ) := by omega
    have hret := Load_retained_final syms0 pkg f textp symsF hwf hnd h sect hs hr
    obtain ⟨s, hfind, hty⟩ : ∃ s,
        symsF.find (keyOf pkg (syms0.versions + 1) sect) = some s ∧
          s.typ = sectKind sect := by
      by_cases htd : sect.typ = STYP_TEXT ∨ sect.typ = STYP_DATA
      · exact ⟨_, hret.1 htd, rfl⟩
      · exact ⟨_, hret.2 htd, rfl⟩
    exact ⟨s, hfind,
      fun ht => by rw [hty, sectKind_text ht],
      fun hd => by rw [hty, sectKind_data hd],
      fun hb => by rw [hty, sectKind_bss hb]⟩
  · intro hout
    have hr : sect.typ < STYP_TEXT ∨ STYP_BSS < sect.typ := by omega
    exact Load_dropped_final syms0 pkg f textp symsF hwf hnd h sect hs hr

/-- C7: relocation translation touches only retained Text and Data sections
(a Bss section keeps an empty relocation list), and a processed section
with N declared raw entries ends with exactly N records, in file order,
each bound to the global (version 0) key of the raw entry's symbol name.
Stated for a successful load over a file with distinct section names,
starting from a namespace whose keys lie in already-minted scopes. -/
theorem C7_reloc_order_and_targets (syms0 : Symbols) (pkg : String) (f : XcoffFile)
    (textp : List (String × Nat)) (symsF : Symbols)
    (hwf : ∀ kv ∈ syms0.table, kv.1.2 ≤ syms0.versions)
    (hnd : (f.sections.map RawSection.name).Nodup)
    (h : Load syms0 pkg f = (.ok textp, symsF)) :
    ∀ sect ∈ f.sections, (STYP_TEXT ≤ sect.typ ∧ sect.typ ≤ STYP_BSS) →
      ((sect.typ = STYP_TEXT ∨ sect.typ = STYP_DATA) →
        ∃ s, symsF.find (pkg ++ "(" ++ sect.name ++ ")", syms0.versions + 1) = some s ∧
          s.r = sect.relocs.map translateReloc1 ∧
          s.r.length = sect.nreloc ∧
          ∀ (i : Nat) (hi : i < s.r.length) (hi2 : i < sect.relocs.length),
            (s.r.get ⟨i, hi⟩).sym = ((sect.relocs.get ⟨i, hi2⟩).symbolName, 0)) ∧
      (sect.typ = STYP_BSS →
        ∃ s, symsF.find (pkg ++ "(" ++ sect.name ++ ")", syms0.versions + 1) = some s ∧
          s.r = []) := by
  intro sect hs hin
  have hr : ¬(sect.typ < STYP_TEXT ∨ STYP_BSS < sect.typ) := by omega
  have hret := Load_retained_final syms0 pkg f textp symsF hwf hnd h sect hs hr
  constructor
  · intro htd
    refine ⟨_, hret.1 htd, rfl, by simp [RawSection.nreloc], ?_⟩
    intro i hi hi2
    have hg : (sect.relocs.map translateReloc1).get
        ⟨i, by simpa using hi2⟩ = translateReloc1 (sect.relocs.get ⟨i, hi2⟩) := by
      simp [List.get_eq_getElem, List.getElem_map]
    simp only
    rw [hg, translateReloc1_sym]
  · intro hb
    have hntd : ¬(sect.typ = STYP_TEXT ∨ sect.typ = STYP_DATA) := by
      rw [hb]
      intro hc
      rcases hc with hc | hc <;> simp [STYP_BSS, STYP_TEXT, STYP_DATA] at hc
    exact ⟨_, hret.2 hntd, rfl⟩

/-- C8 (amended): for every retained section the canonical symbol's size is
the declared size reduced to `int64` — equal to the declared size whenever
it is below `2 ^ 63` — a Bss-section symbol carries no byte buffer, and a
Text/Data-section symbol's buffer holds the section payload.  Stated for a
successful load over a file with distinct section names, starting from a
namespace whose keys lie in already-minted scopes. -/
theorem C8_amended_sizes_and_buffers (syms0 : Symbols) (pkg : String) (f : XcoffFile)
    (textp : List (String × Nat)) (symsF : Symbols)
    (hwf : ∀ kv ∈ syms0.table, kv.1.2 ≤ syms0.versions)
    (hnd : (f.sections.map RawSection.name).Nodup)
    (h : Load syms0 pkg f = (.ok textp, symsF)) :
    ∀ sect ∈ f.sections, (STYP_TEXT ≤ sect.typ ∧ sect.typ ≤ STYP_BSS) →
      ∃ s, symsF.find (pkg ++ "(" ++ sect.name ++ ")", syms0.versions + 1) = some s ∧
        s.size = toInt64 sect.size ∧
        (sect.size < 2 ^ 63 → s.size = (sect.size : Int)) ∧
        (sect.typ = STYP_BSS → s.p = none) ∧
        ((sect.typ = STYP_TEXT ∨ sect.typ = STYP_DATA) → s.p = some sect.payload) := by
  intro sect hs hin
  have hr : ¬(sect.typ < STYP_TEXT ∨ STYP_BSS < sect.typ) := by omega
  have hret := Load_retained_final syms0 pkg f textp symsF hwf hnd h sect hs hr
  obtain ⟨s, hfind, htyq, hsz, hp⟩ : ∃ s,
      symsF.find (keyOf pkg (syms0.versions + 1) sect) = some s ∧
        s.typ = sectKind sect ∧ s.size = toInt64 sect.size ∧
        s.p = (mkSectSym sect).p := by
    by_cases htd : sect.typ = STYP_TEXT ∨ sect.typ = STYP_DATA
    · exact ⟨_, hret.1 htd, rfl, rfl, rfl⟩
    · exact ⟨_, hret.2 htd, rfl, rfl, rfl⟩
  refine ⟨s, hfind, hsz, fun hlt => by rw [hsz, toInt64_of_lt hlt], ?_, ?_⟩
  · intro hb
    rw [hp]
    simp [mkSectSym, sectKind_bss hb]
  · intro htd
    rw [hp]
    have hk : ¬sectKind sect = .SNOPTRBSS := by
      rcases htd with ht | hd
      · rw [sectKind_text ht]; simp
      · rw [sectKind_data hd]; simp
    simp [mkSectSym, hk]

/-- C10: every key in the text list returned by a successful `Load` lives in
the global (version 0) namespace under the name of some raw symbol-table
entry, and the symbol stored there has kind `STEXT` and carries the on-list
flag; no symbol of any other kind enters the list. -/
theorem C10_textp_invariants (syms0 : Symbols) (pkg : String) (f : XcoffFile)
    (textp : List (String × Nat)) (symsF : Symbols)
    (h : Load syms0 pkg f = (.ok textp, symsF)) :
    ∀ k ∈ textp, k.2 = 0 ∧ (∃ sx ∈ f.symbols, sx.name = k.1) ∧
      ∃ s, symsF.find k = some s ∧ s.typ = .STEXT ∧ s.attrOnList = true := by
  obtain ⟨lds, syms1, syms2, heq1, heq2, heqF⟩ := Load_ok_elim h
  intro k hk
  obtain ⟨horg, s, hfind, hty, hol⟩ := loadSymbols_textp_spec f f.symbols [] syms1
    textp syms2 heq2 (by intro k2 hk2; exact absurd hk2 (List.not_mem_nil k2)) k hk
  rcases horg with hin | ⟨h0, sx, hsx, hname⟩
  · exact absurd hin (List.not_mem_nil k)
  · refine ⟨h0, ⟨sx, hsx, hname⟩, ?_⟩
    have hver : ∀ l ∈ lds, l.symKey ≠ k := by
      intro l hl he
      have hlds := loadSections_lds pkg (syms0.versions + 1) f.sections _ lds syms1 heq1
      rw [hlds] at hl
      obtain ⟨s2, _, hmk⟩ := List.mem_map.mp hl
      have hv : l.symKey.2 = syms0.versions + 1 := by rw [← hmk]; rfl
      rw [he, h0] at hv
      exact Nat.succ_ne_zero _ hv.symm
    rw [heqF]
    exact ⟨s, loadRelocSections_find_nokey_some lds hver hfind, hty, hol⟩

/-- C3 (amended): for a raw symbol of storage class hidden-external,
external or weak-external with storage mapping class `XMC_RW` whose
referenced section has type Data or Bss, the classifier returns the plain
data kind `SDATA` in both cases — the same kind for the Data-resident and
the Bss-resident symbol, but not the `SNOPTRDATA` kind the Section
Extractor assigns to a Data section. -/
theorem C3_amended_rw_classification (f : XcoffFile) (s : RawSymbol) (sect : RawSection)
    (h1 : s.storageClass = C_HIDEXT ∨ s.storageClass = C_EXT ∨
      s.storageClass = C_WEAKEXT)
    (h2 : s.storageMappingClass = XMC_RW)
    (h3 : 1 ≤ s.sectionNumber)
    (h4 : f.sections.get? (s.sectionNumber - 1).toNat = some sect)
    (h5 : sect.typ = STYP_DATA ∨ sect.typ = STYP_BSS) :
    getSymbolType f s = .res .SDATA "" ∧ SymKind.SDATA ≠ SymKind.SNOPTRDATA := by
  refine ⟨?_, by decide⟩
  unfold getSymbolType
  rw [if_neg (by omega : ¬s.sectionNumber = -2),
    if_neg (by omega : ¬s.sectionNumber = 0),
    if_neg (by omega : ¬s.sectionNumber < 1)]
  simp only [h4]
  rw [if_neg (by rcases h5 with h5 | h5 <;>
    simp [h5, STYP_DATA, STYP_BSS, STYP_DWARF, STYP_DEBUG])]
  rw [if_neg (by rcases h5 with h5 | h5 <;> simp [h5])]
  rw [if_pos h1]
  rw [if_neg (by simp [h2, XMC_RW, XMC_PR])]
  rw [if_pos h2]
  rcases h5 with h5 | h5
  · rw [if_pos h5]
  · rw [if_neg (by simp [h5, STYP_BSS, STYP_DATA]), if_pos h5]

/-- Witness for C6 at a concrete load: the Text section yields an `STEXT`
symbol under `p(t)` in scope 1, and the Dwarf section yields no symbol. -/
theorem C6_section_retention_witness :
    (∃ s, ((Load emptySymbols "p" fileC6w).2).find ("p(t)", 1) = some s ∧
      (sectC6t.typ = STYP_TEXT → s.typ = .STEXT) ∧
      (sectC6t.typ = STYP_DATA → s.typ = .SNOPTRDATA) ∧
      (sectC6t.typ = STYP_BSS → s.typ = .SNOPTRBSS)) ∧
    ((Load emptySymbols "p" fileC6w).2).find ("p(dw)", 1) = none := by
  have hmain := C6_section_retention emptySymbols "p" fileC6w []
    (Load emptySymbols "p" fileC6w).2
    (by intro kv hkv; exact absurd hkv (List.not_mem_nil kv))
    (by decide) (by rfl)
  exact ⟨(hmain sectC6t (by decide)).1 (by decide),
    (hmain sectC6dw (by decide)).2 (by decide)⟩

/-- Witness for C7 at a concrete load: the Data section's symbol carries
exactly its one translated relocation, and the Bss section's symbol keeps
an empty relocation list. -/
theorem C7_reloc_order_and_targets_witness :
    (∃ s, ((Load emptySymbols "p" fileC7w).2).find ("p(d)", 1) = some s ∧
      s.r = sectC7d.relocs.map translateReloc1 ∧
      s.r.length = sectC7d.nreloc ∧
      ∀ (i : Nat) (hi : i < s.r.length) (hi2 : i < sectC7d.relocs.length),
        (s.r.get ⟨i, hi⟩).sym = ((sectC7d.relocs.get ⟨i, hi2⟩).symbolName, 0)) ∧
    (∃ s, ((Load emptySymbols "p" fileC7w).2).find ("p(b)", 1) = some s ∧
      s.r = []) := by
  have hmain := C7_reloc_order_and_targets emptySymbols "p" fileC7w []
    (Load emptySymbols "p" fileC7w).2
    (by intro kv hkv; exact absurd hkv (List.not_mem_nil kv))
    (by decide) (by rfl)
  exact ⟨(hmain sectC7d (by decide) (by decide)).1 (by decide),
    (hmain sectC7b (by decide) (by decide)).2 (by decide)⟩

/-- Witness for the amended C8 at a concrete load: the Text section's
symbol records size 3 with the payload attached, the Bss section's symbol
records size 5 without a buffer. -/
theorem C8_amended_witness :
    (∃ s, ((Load emptySymbols "p" fileC8w).2).find ("p(t)", 1) = some s ∧
      s.size = toInt64 sectC8t.size ∧
      (sectC8t.size < 2 ^ 63 → s.size = (sectC8t.size : Int)) ∧
      (sectC8t.typ = STYP_BSS → s.p = none) ∧
      ((sectC8t.typ = STYP_TEXT ∨ sectC8t.typ = STYP_DATA) →
        s.p = some sectC8t.payload)) ∧
    (∃ s, ((Load emptySymbols "p" fileC8w).2).find ("p(b)", 1) = some s ∧
      s.size = toInt64 sectC8b.size ∧
      (sectC8b.size < 2 ^ 63 → s.size = (sectC8b.size : Int)) ∧
      (sectC8b.typ = STYP_BSS → s.p = none) ∧
      ((sectC8b.typ = STYP_TEXT ∨ sectC8b.typ = STYP_DATA) →
        s.p = some sectC8b.payload)) := by
  have hmain := C8_amended_sizes_and_buffers emptySymbols "p" fileC8w []
    (Load emptySymbols "p" fileC8w).2
    (by intro kv hkv; exact absurd hkv (List.not_mem_nil kv))
    (by decide) (by rfl)
  exact ⟨hmain sectC8t (by decide) (by decide),
    hmain sectC8b (by decide) (by decide)⟩

/-- Witness for C10 at a concrete load: the returned key `foo` lives at
version 0, names a raw symbol entry, and its symbol is an on-list `STEXT`
symbol. -/
theorem C10_textp_invariants_witness :
    (("foo", 0) : String × Nat).2 = 0 ∧
    (∃ sx ∈ fileC2.symbols, sx.name = (("foo", 0) : String × Nat).1) ∧
    ∃ s, ((Load symsC2 "p" fileC2).2).find ("foo", 0) = some s ∧
      s.typ = .STEXT ∧ s.attrOnList = true :=
  C10_textp_invariants symsC2 "p" fileC2 [("foo", 0), ("foo", 0)]
    (Load symsC2 "p" fileC2).2 (by rfl) ("foo", 0) (by decide)

/-- Witness for the amended C3 at a concrete input: a `C_EXT`/`XMC_RW`
symbol over a Bss section classifies as `SDATA`, a kind distinct from
`SNOPTRDATA`. -/
theorem C3_amended_witness :
    getSymbolType fileC3b symC3b = .res .SDATA "" ∧
    SymKind.SDATA ≠ SymKind.SNOPTRDATA :=
  C3_amended_rw_classification fileC3b symC3b sectC3bSec
    (by decide) (by decide) (by decide) (by decide) (by decide)

end LoadXcoff
